import Mathlib

/-!
Verification of the gNMIc event-pipeline processors, target-diff algorithm and
admin-API handlers, as a shallow embedding of the Go sources
(pkg/formatters, pkg/formatters/event_drop, event_merge, event_override_ts,
event_strings, event_trigger, pkg/loaders, pkg/app/api.go) in Lean 4.

Go values are modelled as follows: Go maps become association lists
(`List (key × value)`); a `nil` pointer `*EventMsg` becomes `Option EventMsg`;
a Go panic (nil-pointer dereference) is modelled by an `Option`-valued function
returning `none`; wall-clock times and durations are `Int` nanoseconds;
a compiled regular expression is abstracted as its matching predicate
`String → Bool`; the result of running a compiled gojq program on an input is
abstracted as a `JqResult` oracle attached to the processor configuration.
-/

namespace Gnmic

/-- Association-list lookup, modelling a Go map read `m[k]` (first binding wins;
well-formed maps have no duplicate keys). -/
def lookupKV {α β : Type} [DecidableEq α] : List (α × β) → α → Option β
  | [], _ => none
  | (k', v) :: rest, k => if k = k' then some v else lookupKV rest k

/-- The first defined of two optional values. -/
def firstSome {β : Type} : Option β → Option β → Option β
  | some v, _ => some v
  | none, o => o

/-- Association-list update, modelling a Go map write `m[k] = v`: replace the
binding if the key is present, otherwise append it. -/
def upsert {α β : Type} [DecidableEq α] : List (α × β) → α → β → List (α × β)
  | [], k, v => [(k, v)]
  | (k', v') :: rest, k, v =>
    if k' = k then (k, v) :: rest else (k', v') :: upsert rest k v

/-- Go-map union by iterated assignment: `for n, x := range m2 { m1[n] = x }`
(the second map wins on key collision). -/
def unionKV {α β : Type} [DecidableEq α] (m1 m2 : List (α × β)) : List (α × β) :=
  m2.foldl (fun acc p => upsert acc p.1 p.2) m1

/-- The keys of an association list are distinct (always true of a Go map). -/
def keysNodup {α β : Type} (m : List (α × β)) : Prop :=
  (m.map Prod.fst).Nodup

instance {α β : Type} [DecidableEq α] (m : List (α × β)) : Decidable (keysNodup m) := by
  unfold keysNodup; infer_instance

/-- A scalar value carried in `EventMsg.Values` (Go `interface{}`): the drop and
strings processors only distinguish string-typed values from the rest. -/
inductive EValue : Type where
  | str (s : String)
  | int (i : Int)
  deriving DecidableEq, Repr

/-- `formatters.EventMsg`: `{name, timestamp(ns), tags, values, deletes}`. -/
structure EventMsg : Type where
  name : String := ""
  timestamp : Int := 0
  tags : List (String × String) := []
  values : List (String × EValue) := []
  deletes : List String := []
  deriving DecidableEq, Repr

instance : Inhabited EventMsg := ⟨{}⟩

/-- Remove the nil entries of a batch (`*EventMsg` pointers that are nil). -/
def denil (es : List (Option EventMsg)) : List EventMsg :=
  es.filterMap id

/-! ## event_merge (event_merge.go) -/

/-- `mergeEvents(e1, e2)`: merge `e2` into `e1` — union of tags and values with
`e2` winning on key collision, concatenation of delete paths, and the larger
timestamp (`if e2.Timestamp > e1.Timestamp { e1.Timestamp = e2.Timestamp }`).
The `if e1.Tags == nil / e1.Values == nil { make(...) }` steps are no-ops in
the association-list model. -/
def mergeEvents (e1 e2 : EventMsg) : EventMsg :=
  { name := e1.name
    tags := unionKV e1.tags e2.tags
    values := unionKV e1.values e2.values
    deletes := e1.deletes ++ e2.deletes
    timestamp := if e2.timestamp > e1.timestamp then e2.timestamp else e1.timestamp }

/-- The by-timestamp loop of `merge.Apply`: `result` accumulates the output,
`tsIdx` is the Go map `timestamps : map[int64]int` sending a timestamp to the
index in `result` of the first event seen with that timestamp; nil entries are
skipped (`if e == nil { continue }`). -/
def mergeByTsAux (es : List (Option EventMsg)) (res : List EventMsg)
    (tsIdx : List (Int × Nat)) : List EventMsg :=
  match es with
  | [] => res
  | none :: rest => mergeByTsAux rest res tsIdx
  | some e :: rest =>
    match lookupKV tsIdx e.timestamp with
    | some idx => mergeByTsAux rest (res.set idx (mergeEvents (res.getD idx default) e)) tsIdx
    | none => mergeByTsAux rest (res ++ [e]) (tsIdx ++ [(e.timestamp, res.length)])

/-- `merge.Apply(es...)`. `always = true` folds every non-nil event into
`es[0]` and returns the single-element batch `[es[0]]`; if `es[0]` is nil and a
later entry is non-nil, `mergeEvents(es[0], e)` dereferences the nil pointer —
modelled by `none` (a Go panic). `always = false` groups by timestamp. An empty
batch returns nil. -/
def mergeApply (always : Bool) (es : List (Option EventMsg)) :
    Option (List (Option EventMsg)) :=
  if es = [] then some []
  else if always then
    match es with
    | [] => some []
    | some e0 :: rest => some [some ((denil rest).foldl mergeEvents e0)]
    | none :: rest => if denil rest = [] then some [none] else none
  else some ((mergeByTsAux es [] []).map some)

/-- Written from the claim's words, to be compared with `mergeByTsAux`: fold an
event into the first element of the accumulator that carries its timestamp
(the group's first event), or append it as a new group. -/
def mergeInto (res : List EventMsg) (e : EventMsg) : List EventMsg :=
  match res with
  | [] => [e]
  | x :: xs =>
    if x.timestamp = e.timestamp then mergeEvents x e :: xs else x :: mergeInto xs e

/-- Written from the claim's words: by-timestamp merge groups events with
identical timestamp, keeping the first occurrence of each timestamp in batch
order, and folds each later group member into the group's first event. -/
def specMergeByTs (es : List EventMsg) : List EventMsg :=
  es.foldl mergeInto []

/-- Index of the first event in `res` with timestamp `ts`. -/
def idxOfTs (res : List EventMsg) (ts : Int) : Option Nat :=
  match res with
  | [] => none
  | x :: xs => if x.timestamp = ts then some 0 else (idxOfTs xs ts).map (· + 1)

/-! ## formatters.CheckCondition and event_drop (event_drop.go) -/

/-- Outcome of running a compiled gojq program on an input: the iterator is
immediately exhausted, the first result is an error, a boolean, or a value of
any other type. -/
inductive JqResult : Type where
  | noResult
  | errResult
  | boolResult (b : Bool)
  | otherResult
  deriving DecidableEq, Repr

/-- `formatters.CheckCondition(code, e)`. A nil code returns `(true, nil)`.
Otherwise the event is marshalled to JSON (a nil `*EventMsg` marshals to
`null`; marshalling never fails on well-formed events) and the program is run
on it — the run is abstracted as a `JqResult` oracle. Exhausted iterator:
`(false, nil)`; error result: `(false, err)`; boolean: `(res, nil)`; any other
type: `(false, "unexpected condition return type")`. -/
def checkCondition (code : Option (Option EventMsg → JqResult)) (e : Option EventMsg) :
    Except String Bool :=
  match code with
  | none => .ok true
  | some f =>
    match f e with
    | .noResult => .ok false
    | .errResult => .error "condition evaluation error"
    | .boolResult b => .ok b
    | .otherResult => .error "unexpected condition return type"

/-- Configuration of the `event-drop` processor after `Init`: the raw
`Condition` string (the gate in `drop.drop` is `d.Condition != ""`), the
behaviour of the compiled gojq code (always non-nil after `Init`), and the
compiled regexes as matching predicates. -/
structure DropCfg : Type where
  condition : String := ""
  condEval : Option EventMsg → JqResult := fun _ => .noResult
  tagNames : List (String → Bool) := []
  valueNames : List (String → Bool) := []
  tagsRe : List (String → Bool) := []
  valuesRe : List (String → Bool) := []

/-- The value-regex check of `drop.drop`: the Go type assertion
`if vs, ok := v.(string); ok` restricts the match to string-typed values. -/
def valueStrMatch (res : List (String → Bool)) (v : EValue) : Bool :=
  match v with
  | .str vs => res.any (fun re => re vs)
  | _ => false

/-- The regex part of `drop.drop`: iterate the values (value-name regexes on
the key, value regexes on string-typed values), then the tags (tag-name
regexes on the key, tag regexes on the value); any match drops the event. -/
def dropRegexMatch (d : DropCfg) (e : EventMsg) : Bool :=
  e.values.any (fun p =>
      d.valueNames.any (fun re => re p.1) || valueStrMatch d.valuesRe p.2) ||
  e.tags.any (fun p =>
      d.tagNames.any (fun re => re p.1) || d.tagsRe.any (fun re => re p.2))

/-- `drop.drop(e)`: if a condition is configured, its result alone decides
(`CheckCondition` error drops the event); otherwise the regexes decide.
`none` models the Go panic: with no condition configured, `for k, v := range
e.Values` dereferences a nil `e`. -/
def dropB (d : DropCfg) (e : Option EventMsg) : Option Bool :=
  if d.condition ≠ "" then
    some (match checkCondition (some d.condEval) e with
          | .error _ => true
          | .ok ok => ok)
  else
    match e with
    | some ev => some (dropRegexMatch d ev)
    | none => none

/-- `drop.drop` specialised to a non-nil event, where it always returns. -/
def dropBool (d : DropCfg) (e : EventMsg) : Bool :=
  (dropB d (some e)).getD false

/-- `drop.Apply(es...)`: keep the entries `drop` rejects, in order (the Go code
compacts `es` in place and returns the prefix of kept entries); `none` models
a panic raised by `drop` on some entry. -/
def dropApply (d : DropCfg) : List (Option EventMsg) → Option (List (Option EventMsg))
  | [] => some []
  | oe :: rest =>
    match dropB d oe with
    | none => none
    | some true => dropApply d rest
    | some false => (dropApply d rest).map (oe :: ·)

/-- Written from the claim's words: the drop criteria as a predicate — with a
condition configured, the condition evaluating to true or failing; otherwise
some tag-name / tag-value / value-name / string-value regex matching. -/
def dropSpec (d : DropCfg) (e : EventMsg) : Prop :=
  if d.condition ≠ "" then
    checkCondition (some d.condEval) (some e) ≠ .ok false
  else
    (∃ p ∈ e.values, (∃ re ∈ d.valueNames, re p.1 = true) ∨
        (∃ vs, p.2 = .str vs ∧ ∃ re ∈ d.valuesRe, re vs = true)) ∨
    (∃ p ∈ e.tags, (∃ re ∈ d.tagNames, re p.1 = true) ∨ (∃ re ∈ d.tagsRe, re p.2 = true))

/-! ## event_trigger (event_trigger.go) -/

/-- Configuration of the `event-trigger` processor after `setDefaults`:
`1 ≤ minOcc ≤ maxOcc`, `window > 0`; the compiled condition is abstracted as a
`JqResult` oracle. -/
structure TriggerCfg : Type where
  minOcc : Nat := 1
  maxOcc : Nat := 1
  window : Int := 60000000000
  condEval : Option EventMsg → JqResult := fun _ => .boolResult true

/-- Mutable state of the trigger processor: `occurrencesTimes` and
`lastTrigger` (the Go zero `time.Time`, far in the past, is time `0` here;
`now` values are wall-clock nanoseconds, far larger). -/
structure TriggerState : Type where
  occurrencesTimes : List Int := []
  lastTrigger : Int := 0
  deriving DecidableEq, Repr

/-- `trigger.evalOccurrencesWithinWindow(now)`: evict occurrences with
`t + window ≤ now`, append `now`, trim the list to its last
`maxOcc + 1` entries when it exceeds `maxOcc`, then fire if the count is in
`[minOcc, maxOcc]`, or if the count exceeds `minOcc` and the last firing is
more than `window` in the past; firing records `now` as `lastTrigger`. -/
def evalOccurrencesWithinWindow (tc : TriggerCfg) (st : TriggerState) (now : Int) :
    Bool × TriggerState :=
  let inWin := st.occurrencesTimes.filter (fun t => decide (t + tc.window > now))
  let occ1 := inWin ++ [now]
  let occ2 := if occ1.length > tc.maxOcc then occ1.drop (occ1.length - tc.maxOcc - 1) else occ1
  if tc.minOcc ≤ occ2.length ∧ occ2.length ≤ tc.maxOcc then (true, ⟨occ2, now⟩)
  else if tc.minOcc < occ2.length ∧ st.lastTrigger + tc.window < now then (true, ⟨occ2, now⟩)
  else (false, ⟨occ2, st.lastTrigger⟩)

/-- A sequence of condition-true occurrences at the given times, fed one by one
to `evalOccurrencesWithinWindow`; returns the firing decision of each call and
the final state. -/
def evalRun (tc : TriggerCfg) : TriggerState → List Int → List Bool × TriggerState
  | st, [] => ([], st)
  | st, now :: rest =>
    let r := evalOccurrencesWithinWindow tc st now
    let rec' := evalRun tc r.2 rest
    (r.1 :: rec'.1, rec'.2)

/-- One event of `trigger.Apply`: nil entries are skipped, a condition
evaluation error is logged and skipped, a false condition does nothing, a true
condition runs `evalOccurrencesWithinWindow`. Returns the updated state and
the firing decision, if any. -/
def triggerStep (tc : TriggerCfg) (st : TriggerState) (now : Int) (oe : Option EventMsg) :
    TriggerState × Option Bool :=
  match oe with
  | none => (st, none)
  | some e =>
    match checkCondition (some tc.condEval) (some e) with
    | .error _ => (st, none)
    | .ok false => (st, none)
    | .ok true =>
      let r := evalOccurrencesWithinWindow tc st now
      (r.2, some r.1)

/-- `trigger.Apply(es...)`: `now` is read once per batch; the batch is
returned unchanged; the state is folded over the entries. -/
def triggerApply (tc : TriggerCfg) (st : TriggerState) (now : Int) :
    List (Option EventMsg) → List (Option EventMsg) × TriggerState
  | [] => ([], st)
  | oe :: rest =>
    let st' := (triggerStep tc st now oe).1
    let r := triggerApply tc st' now rest
    (oe :: r.1, r.2)

/-! ## event_override_ts (event_override_ts.go) -/

/-- Timestamp override of one event: wall clock `now` (nanoseconds) at the
configured precision; an unknown precision leaves the timestamp unchanged
(the Go `switch` has no default case). -/
def overrideTsEvent (precision : String) (now : Int) (e : EventMsg) : EventMsg :=
  match precision with
  | "s" => { e with timestamp := now / 1000000000 }
  | "ms" => { e with timestamp := now / 1000000 }
  | "us" => { e with timestamp := now / 1000 }
  | "ns" => { e with timestamp := now }
  | _ => e

/-- `overrideTS.Apply(es...)`: nil entries are skipped
(`if e == nil { continue }`), the batch is returned with each event's
timestamp overridden in place. -/
def overrideTsApply (precision : String) (now : Int) :
    List (Option EventMsg) → List (Option EventMsg)
  | [] => []
  | none :: rest => none :: overrideTsApply precision now rest
  | some e :: rest => some (overrideTsEvent precision now e) :: overrideTsApply precision now rest

/-- `stringsp.Apply(es...)` (event_strings.go): nil entries are skipped
(`if e == nil { continue }`) and each non-nil event is transformed in place;
the per-event tag/value transformation loop is abstracted as `f`, since only
the batch-level nil handling is at stake in the claims. -/
def stringsApply (f : EventMsg → EventMsg) :
    List (Option EventMsg) → List (Option EventMsg)
  | [] => []
  | none :: rest => none :: stringsApply f rest
  | some e :: rest => some (f e) :: stringsApply f rest

/-! ## pkg/loaders: target configurations and Diff -/

/-- `types.TargetConfig`, restricted to the fields the loaders tests exercise;
`tags` is an ordered list, so structural equality is deep and order-sensitive. -/
structure TargetConfig : Type where
  name : String := ""
  address : String := ""
  username : Option String := none
  password : Option String := none
  tags : List String := []
  deriving DecidableEq, Repr

/-- `loaders.TargetOperation`: targets to add and names to delete. -/
structure TargetOperation : Type where
  add : List (String × TargetConfig) := []
  del : List String := []
  deriving DecidableEq, Repr

/-- Modelled from the spec: the `loaders.Diff` function itself is not among
the provided sources (only its test `loaders_test.go` is). Spec §4.2: given
previous map `A` and new map `B`, `Add = { k ∈ B | k ∉ A or A[k] ≠ B[k] }`,
`Del = { k ∈ A | k ∉ B or A[k] ≠ B[k] }`; equality is deep and
order-sensitive for list fields; nil maps behave as empty maps. -/
def Diff (a b : List (String × TargetConfig)) : TargetOperation :=
  { add := b.filter (fun p => decide (lookupKV a p.1 ≠ some p.2))
    del := (a.filter (fun p => decide (lookupKV b p.1 ≠ some p.2))).map Prod.fst }

/-! ## pkg/app/api.go: admin API handlers -/

/-- An entry of the `<cluster>-gnmic-api` service as returned by
`locker.GetServices`. -/
structure ServiceEntry : Type where
  id : String := ""
  address : String := ""
  tags : List String := []
  deriving DecidableEq, Repr

/-- `clusterMember` of api.go. -/
structure ClusterMember : Type where
  name : String := ""
  apiEndpoint : String := ""
  isLeader : Bool := false
  numLockedTargets : Nat := 0
  lockedTargets : List String := []
  deriving DecidableEq, Repr

instance : Inhabited ClusterMember := ⟨{}⟩

/-- `clusteringResponse` of api.go. -/
structure ClusteringResponse : Type where
  clusterName : String := ""
  numLockedTargets : Nat := 0
  leader : String := ""
  members : List ClusterMember := []
  deriving DecidableEq, Repr

/-- The JSON body written by an api.go handler. -/
inductive ApiBody : Type where
  | empty
  | targetsMap (ts : List (String × TargetConfig))
  | oneTarget (tc : TargetConfig)
  | errors (es : List String)
  | cluster (r : ClusteringResponse)
  | members (ms : List ClusterMember)
  deriving DecidableEq, Repr

/-- The coordination-service or dispatch operation an admin handler initiates. -/
inductive AdminAction : Type where
  | unlockLeader
  | rebalance
  | drainInstance (id : String)
  deriving DecidableEq, Repr

/-- `App.getLeaderName`: list the single-holder leader key. On a `List` error
the source does `return "", nil` — the error is swallowed and the empty leader
name is returned; a missing key also yields the empty string. -/
def getLeaderName (clusterName : String)
    (listLeader : Except String (List (String × String))) : Except String String :=
  match listLeader with
  | .error _ => .ok ""
  | .ok m => .ok ((lookupKV m ("gnmic/" ++ clusterName ++ "/leader")).getD "")

/-- Drop `suf` from the end of `s` if present (Go `strings.TrimSuffix`). -/
def trimEnd (s suf : String) : String :=
  if s.endsWith suf then s.dropRight suf.length else s

/-- The URL scheme of a member: `"http://"` unless a `protocol=<scheme>`
service tag overrides it (the last such tag wins). -/
def schemeOf (tags : List String) : String :=
  tags.foldl (fun sc t => if t.startsWith "protocol=" then (t.drop 9) ++ "://" else sc)
    "http://"

/-- One `clusterMember` built from a service entry, the leader name and the
instance-to-targets mapping (a missing instance yields a nil slice). -/
def mkMember (leader : String) (instanceNodes : List (String × List String))
    (s : ServiceEntry) : ClusterMember :=
  let nm := trimEnd s.id "-api"
  let locked := (lookupKV instanceNodes nm).getD []
  { name := nm
    apiEndpoint := schemeOf s.tags ++ s.address
    isLeader := leader = nm
    numLockedTargets := locked.length
    lockedTargets := locked }

/-- `App.handleClusteringGet` (`GET /api/v1/cluster`): with clustering
disabled, an empty 200; otherwise leader name (via `getLeaderName`), service
listing and instance-to-targets mapping are queried in turn, a failure of
either of the last two returning 500 with an errors body; on success a 200
with the aggregated `clusteringResponse`. -/
def handleClusteringGet (clusteringEnabled : Bool) (clusterName : String)
    (listLeader : Except String (List (String × String)))
    (servicesRes : Except String (List ServiceEntry))
    (instanceNodesRes : Except String (List (String × List String))) : Nat × ApiBody :=
  if ¬ clusteringEnabled then (200, .empty)
  else
    match getLeaderName clusterName listLeader with
    | .error e => (500, .errors [e])
    | .ok leader =>
      match servicesRes with
      | .error e => (500, .errors [e])
      | .ok services =>
        match instanceNodesRes with
        | .error e => (500, .errors [e])
        | .ok instanceNodes =>
          (200, .cluster
            { clusterName := clusterName
              numLockedTargets := (instanceNodes.map (fun p => p.2.length)).sum
              leader := leader
              members := services.map (mkMember leader instanceNodes) })

/-- `App.handleClusteringMembersGet` (`GET /api/v1/cluster/members`): same
queries as `handleClusteringGet`, returning the member list. -/
def handleClusteringMembersGet (clusteringEnabled : Bool) (clusterName : String)
    (listLeader : Except String (List (String × String)))
    (servicesRes : Except String (List ServiceEntry))
    (instanceNodesRes : Except String (List (String × List String))) : Nat × ApiBody :=
  if ¬ clusteringEnabled then (200, .empty)
  else
    match getLeaderName clusterName listLeader with
    | .error e => (500, .errors [e])
    | .ok leader =>
      match servicesRes with
      | .error e => (500, .errors [e])
      | .ok services =>
        match instanceNodesRes with
        | .error e => (500, .errors [e])
        | .ok instanceNodes =>
          (200, .members (services.map (mkMember leader instanceNodes)))

/-- `App.handleClusteringLeaderGet` (`GET /api/v1/cluster/leader`): same
queries, returning a single-element member list holding the leader's entry
(or the zero member when the leader's service entry is absent). -/
def handleClusteringLeaderGet (clusteringEnabled : Bool) (clusterName : String)
    (listLeader : Except String (List (String × String)))
    (servicesRes : Except String (List ServiceEntry))
    (instanceNodesRes : Except String (List (String × List String))) : Nat × ApiBody :=
  if ¬ clusteringEnabled then (200, .empty)
  else
    match getLeaderName clusterName listLeader with
    | .error e => (500, .errors [e])
    | .ok leader =>
      match servicesRes with
      | .error e => (500, .errors [e])
      | .ok services =>
        match instanceNodesRes with
        | .error e => (500, .errors [e])
        | .ok instanceNodes =>
          (200, .members
            [match services.find? (fun s => trimEnd s.id "-api" = leader) with
             | some s => { mkMember leader instanceNodes s with isLeader := true }
             | none => default])

/-- `App.handleClusteringLeaderDelete` (`DELETE /api/v1/cluster/leader`): with
clustering disabled, an empty 200 and no action; for a non-leader, 400 with
`{"errors":["not leader"]}` and no action; for the leader, the leader key is
unlocked (500 with an errors body if that fails). -/
def handleClusteringLeaderDelete (clusteringEnabled isLeader : Bool)
    (unlockRes : Except String Unit) : (Nat × ApiBody) × Option AdminAction :=
  if ¬ clusteringEnabled then ((200, .empty), none)
  else if ¬ isLeader then ((400, .errors ["not leader"]), none)
  else
    match unlockRes with
    | .error e => ((500, .errors [e]), some .unlockLeader)
    | .ok _ => ((200, .empty), some .unlockLeader)

/-- `App.handleClusterRebalance` (`POST /api/v1/cluster/rebalance`): for a
non-leader, 400 with `{"errors":["not leader"]}` and no action; for the
leader, the rebalance goroutine is started and an empty 200 returned. -/
def handleClusterRebalance (clusteringEnabled isLeader : Bool) :
    (Nat × ApiBody) × Option AdminAction :=
  if ¬ clusteringEnabled then ((200, .empty), none)
  else if ¬ isLeader then ((400, .errors ["not leader"]), none)
  else ((200, .empty), some .rebalance)

/-- `App.handleClusteringDrainInstance` (`POST /api/v1/cluster/drain/{id}`):
for a non-leader, 400 with `{"errors":["not leader"]}` and no action; for the
leader, the instance's service entry and target list are queried and the drain
goroutine started. -/
def handleClusteringDrainInstance (clusteringEnabled isLeader : Bool) (id : String)
    (servicesRes : Except String (List ServiceEntry))
    (targetsRes : Except String (List String)) : (Nat × ApiBody) × Option AdminAction :=
  if ¬ clusteringEnabled then ((200, .empty), none)
  else if ¬ isLeader then ((400, .errors ["not leader"]), none)
  else if id = "" then ((400, .empty), none)
  else
    match servicesRes with
    | .error e => ((500, .errors [e]), none)
    | .ok services =>
      if services = [] then ((400, .errors ["unknown instance: " ++ id]), none)
      else
        match targetsRes with
        | .error e => ((500, .errors [e]), none)
        | .ok _ => ((200, .empty), some (.drainInstance id))

/-- `types.TargetConfig.DeepCopy` followed by
`Password = pointer.ToString("****")`: the copy with its password redacted. -/
def redactTarget (tc : TargetConfig) : TargetConfig :=
  { tc with password := some "****" }

/-- `App.handleConfigTargetsGet` (`GET /api/v1/config/targets[/{id}]`): with no
id, a 200 with a freshly built map of deep-copied, password-redacted targets;
with a known id, a 200 with that target's redacted deep copy; otherwise a 404
with an errors body. The handler holds a read lock and never writes the
stored map — the returned state is the input state. -/
def handleConfigTargetsGet (targets : List (String × TargetConfig)) (id : String) :
    (Nat × ApiBody) × List (String × TargetConfig) :=
  if id = "" then
    ((200, .targetsMap (targets.map (fun p => (p.1, redactTarget p.2)))), targets)
  else
    match lookupKV targets id with
    | some tc => ((200, .oneTarget (redactTarget tc)), targets)
    | none => ((404, .errors ["target \"" ++ id ++ "\" not found"]), targets)

/-! ## Association-list lemmas -/

theorem lookupKV_eq_none_iff {α β : Type} [DecidableEq α] (m : List (α × β)) (k : α) :
    lookupKV m k = none ↔ k ∉ m.map Prod.fst := by
  induction m with
  | nil => simp [lookupKV]
  | cons p rest ih =>
    obtain ⟨k', v⟩ := p
    by_cases h : k = k' <;> simp [lookupKV, h, ih]

theorem lookupKV_eq_some_of_mem {α β : Type} [DecidableEq α] (m : List (α × β))
    (k : α) (v : β) (hm : keysNodup m) (hmem : (k, v) ∈ m) : lookupKV m k = some v := by
  induction m with
  | nil => simp at hmem
  | cons p rest ih =>
    obtain ⟨k', v'⟩ := p
    unfold keysNodup at hm
    simp only [List.map_cons, List.nodup_cons] at hm
    rcases List.mem_cons.mp hmem with h | h
    · obtain ⟨rfl, rfl⟩ := Prod.mk.injEq .. ▸ h
      simp [lookupKV]
    · have hk : k ≠ k' := by
        rintro rfl
        exact hm.1 (List.mem_map.mpr ⟨(k, v), h, rfl⟩)
      simpa [lookupKV, hk] using ih hm.2 h

theorem lookupKV_eq_some_iff_mem {α β : Type} [DecidableEq α] (m : List (α × β))
    (k : α) (v : β) (hm : keysNodup m) : lookupKV m k = some v ↔ (k, v) ∈ m := by
  constructor
  · intro h
    induction m with
    | nil => simp [lookupKV] at h
    | cons p rest ih =>
      obtain ⟨k', v'⟩ := p
      unfold keysNodup at hm
      simp only [List.map_cons, List.nodup_cons] at hm
      by_cases hk : k = k'
      · subst hk
        simp [lookupKV] at h
        simp [h]
      · simp only [lookupKV, if_neg hk] at h
        exact List.mem_cons.mpr (Or.inr (ih hm.2 h))
  · exact lookupKV_eq_some_of_mem m k v hm

theorem lookupKV_append {α β : Type} [DecidableEq α] (a b : List (α × β)) (k : α) :
    lookupKV (a ++ b) k = firstSome (lookupKV a k) (lookupKV b k) := by
  induction a with
  | nil => simp [lookupKV, firstSome]
  | cons p rest ih =>
    obtain ⟨k', v'⟩ := p
    by_cases h : k = k' <;> simp [lookupKV, firstSome, h, ih]

theorem lookupKV_upsert {α β : Type} [DecidableEq α] (m : List (α × β)) (k : α) (v : β)
    (k' : α) :
    lookupKV (upsert m k v) k' = if k' = k then some v else lookupKV m k' := by
  induction m with
  | nil => simp [upsert, lookupKV]
  | cons p rest ih =>
    obtain ⟨k0, v0⟩ := p
    by_cases h0 : k0 = k
    · by_cases h1 : k' = k0 <;> simp_all [upsert, lookupKV]
    · by_cases h1 : k' = k0
      · have h2 : k' ≠ k := by rw [h1]; exact h0
        simp [upsert, lookupKV, h0, h1, h2]
      · simp [upsert, lookupKV, h0, h1, ih]

theorem lookupKV_unionKV {α β : Type} [DecidableEq α] (m1 m2 : List (α × β)) (k : α)
    (h2 : keysNodup m2) :
    lookupKV (unionKV m1 m2) k = firstSome (lookupKV m2 k) (lookupKV m1 k) := by
  induction m2 generalizing m1 with
  | nil => simp [unionKV, lookupKV, firstSome]
  | cons p rest ih =>
    obtain ⟨k0, v0⟩ := p
    unfold keysNodup at h2
    simp only [List.map_cons, List.nodup_cons] at h2
    have hrest : keysNodup rest := h2.2
    have step : unionKV m1 ((k0, v0) :: rest) = unionKV (upsert m1 k0 v0) rest := by
      simp [unionKV]
    rw [step, ih (upsert m1 k0 v0) hrest]
    by_cases hk : k = k0
    · subst hk
      have hnone : lookupKV rest k = none :=
        (lookupKV_eq_none_iff rest k).mpr h2.1
      simp [lookupKV, firstSome, hnone, lookupKV_upsert]
    · simp only [lookupKV, if_neg hk]
      cases hr : lookupKV rest k with
      | some v => simp [firstSome, hr]
      | none => simp [firstSome, hr, lookupKV_upsert, hk]

/-! ## C1: the loader Diff algorithm -/

/-- **C1.** Modelled from the spec (the `Diff` source is absent; only its test
is provided): `Diff(A, B)` returns `Add = { k ∈ B | k ∉ A or A[k] ≠ B[k] }`
and `Del = { k ∈ A | k ∉ B or A[k] ≠ B[k] }`, with deep, order-sensitive
equality of list fields; `Diff(A, A)` is empty, nil maps behave as empty maps,
and a tag reorder puts the target in both Add and Del. The concrete conjuncts
mirror test cases t7, t10, t11 and t13 of `loaders_test.go`. -/
theorem c1_diff_algorithm (a b : List (String × TargetConfig))
    (ha : keysNodup a) (hb : keysNodup b) :
    (∀ k v, (k, v) ∈ (Diff a b).add ↔
      (lookupKV b k = some v ∧ lookupKV a k ≠ some v))
    ∧ (∀ k, k ∈ (Diff a b).del ↔
      (∃ v, lookupKV a k = some v ∧ lookupKV b k ≠ some v))
    ∧ Diff a a = ⟨[], []⟩
    ∧ Diff [] [] = ⟨[], []⟩
    ∧ Diff [("t", { tags := ["a", "b"] })] [("t", { tags := ["b", "a"] })]
        = ⟨[("t", { tags := ["b", "a"] })], ["t"]⟩
    ∧ Diff [("target1", { name := "target1" })] [("target2", { name := "target2" })]
        = ⟨[("target2", { name := "target2" })], ["target1"]⟩
    ∧ Diff [("target1", { address := "ip1" }), ("target2", { address := "ip2" })]
          [("target1", { address := "ip1" }), ("target2", { address := "ip2new" })]
        = ⟨[("target2", { address := "ip2new" })], ["target2"]⟩
    ∧ Diff [("target1", { name := "target1", tags := ["a"] })]
          [("target1", { name := "target1", tags := ["a", "b"] })]
        = ⟨[("target1", { name := "target1", tags := ["a", "b"] })], ["target1"]⟩ := by
  refine ⟨?_, ?_, ?_, by decide, by decide, by decide, by decide, by decide⟩
  · intro k v
    constructor
    · intro h
      have h' := List.mem_filter.mp h
      have hmem : (k, v) ∈ b := h'.1
      have hne : lookupKV a k ≠ some v := by
        simpa using h'.2
      exact ⟨lookupKV_eq_some_of_mem b k v hb hmem, hne⟩
    · rintro ⟨hb', hne⟩
      exact List.mem_filter.mpr
        ⟨(lookupKV_eq_some_iff_mem b k v hb).mp hb', by simpa using hne⟩
  · intro k
    constructor
    · intro h
      obtain ⟨⟨k', v⟩, hmem, rfl⟩ := List.mem_map.mp h
      have h' := List.mem_filter.mp hmem
      exact ⟨v, lookupKV_eq_some_of_mem a k' v ha h'.1, by simpa using h'.2⟩
    · rintro ⟨v, hv, hne⟩
      exact List.mem_map.mpr
        ⟨(k, v), List.mem_filter.mpr
          ⟨(lookupKV_eq_some_iff_mem a k v ha).mp hv, by simpa using hne⟩, rfl⟩
  · have hadd : a.filter (fun p => decide (lookupKV a p.1 ≠ some p.2)) = [] := by
      apply List.filter_eq_nil_iff.mpr
      intro p hp
      have h := lookupKV_eq_some_of_mem a p.1 p.2 ha hp
      simp [h]
    unfold Diff
    rw [hadd]
    rfl

/-- Witness for C1, at the tag-reorder input of test t13. -/
theorem c1_diff_algorithm_witness :
    Diff [("t", { tags := ["a", "b"] })] [("t", { tags := ["a", "b"] })] = ⟨[], []⟩ :=
  (c1_diff_algorithm [("t", { tags := ["a", "b"] })] [("t", { tags := ["a", "b"] })]
    (by decide) (by decide)).2.2.1

/-! ## C2: the merge processor -/

theorem mergeEvents_timestamp (e1 e2 : EventMsg) :
    (mergeEvents e1 e2).timestamp = max e1.timestamp e2.timestamp := by
  simp only [mergeEvents]
  split <;> omega

theorem mergeEvents_timestamp_eq (e1 e2 : EventMsg) (h : e1.timestamp = e2.timestamp) :
    (mergeEvents e1 e2).timestamp = e1.timestamp := by
  rw [mergeEvents_timestamp, h, max_self]

theorem mergeInto_found (res : List EventMsg) (e : EventMsg) (i : Nat)
    (h : idxOfTs res e.timestamp = some i) :
    mergeInto res e = res.set i (mergeEvents (res.getD i default) e) := by
  induction res generalizing i with
  | nil => simp [idxOfTs] at h
  | cons x xs ih =>
    by_cases hx : x.timestamp = e.timestamp
    · simp only [idxOfTs, if_pos hx] at h
      obtain rfl : (0 : Nat) = i := Option.some.inj h
      simp [mergeInto, hx]
    · simp only [idxOfTs, if_neg hx, Option.map_eq_some'] at h
      obtain ⟨j, hj, rfl⟩ := h
      simp [mergeInto, hx, ih j hj]

theorem mergeInto_notFound (res : List EventMsg) (e : EventMsg)
    (h : idxOfTs res e.timestamp = none) :
    mergeInto res e = res ++ [e] := by
  induction res with
  | nil => simp [mergeInto]
  | cons x xs ih =>
    by_cases hx : x.timestamp = e.timestamp
    · simp [idxOfTs, hx] at h
    · simp only [idxOfTs, if_neg hx, Option.map_eq_none'] at h
      simp [mergeInto, hx, ih h]

theorem tsMap_mergeInto_found (res : List EventMsg) (e : EventMsg) (i : Nat)
    (h : idxOfTs res e.timestamp = some i) :
    (mergeInto res e).map (fun x => x.timestamp) = res.map (fun x => x.timestamp) := by
  induction res generalizing i with
  | nil => simp [idxOfTs] at h
  | cons x xs ih =>
    by_cases hx : x.timestamp = e.timestamp
    · have hts : (mergeEvents x e).timestamp = x.timestamp :=
        mergeEvents_timestamp_eq x e hx
      simp [mergeInto, hx, hts]
    · simp only [idxOfTs, if_neg hx, Option.map_eq_some'] at h
      obtain ⟨j, hj, rfl⟩ := h
      simp [mergeInto, hx, ih j hj]

theorem idxOfTs_congr (l1 l2 : List EventMsg)
    (h : l1.map (fun x => x.timestamp) = l2.map (fun x => x.timestamp)) (t : Int) :
    idxOfTs l1 t = idxOfTs l2 t := by
  induction l1 generalizing l2 with
  | nil =>
    cases l2 with
    | nil => rfl
    | cons y ys => simp at h
  | cons x xs ih =>
    cases l2 with
    | nil => simp at h
    | cons y ys =>
      simp only [List.map_cons, List.cons.injEq] at h
      simp [idxOfTs, h.1, ih ys h.2]

theorem idxOfTs_append_single (l : List EventMsg) (x : EventMsg) (t : Int) :
    idxOfTs (l ++ [x]) t =
      firstSome (idxOfTs l t) (if x.timestamp = t then some l.length else none) := by
  induction l with
  | nil => simp [idxOfTs, firstSome]
  | cons y ys ih =>
    by_cases hy : y.timestamp = t
    · simp [idxOfTs, firstSome, hy]
    · simp only [List.cons_append, idxOfTs, if_neg hy, List.append_eq]
      rw [ih]
      cases hr : idxOfTs ys t with
      | some i => simp [firstSome, hr]
      | none =>
        by_cases hx : x.timestamp = t <;> simp [firstSome, hr, hx]

theorem mergeByTsAux_eq_spec (es : List (Option EventMsg)) :
    ∀ (res : List EventMsg) (tsIdx : List (Int × Nat)),
    (∀ t, lookupKV tsIdx t = idxOfTs res t) →
    mergeByTsAux es res tsIdx = (denil es).foldl mergeInto res := by
  induction es with
  | nil => intro res tsIdx _; simp [mergeByTsAux, denil]
  | cons oe rest ih =>
    intro res tsIdx hinv
    cases oe with
    | none =>
      simpa [mergeByTsAux, denil] using ih res tsIdx hinv
    | some e =>
      have hstep : denil (some e :: rest) = e :: denil rest := by simp [denil]
      rw [hstep]
      simp only [List.foldl_cons]
      cases hl : lookupKV tsIdx e.timestamp with
      | some idx =>
        have hidx : idxOfTs res e.timestamp = some idx := by rw [← hinv, hl]
        have hset : res.set idx (mergeEvents (res.getD idx default) e) = mergeInto res e :=
          (mergeInto_found res e idx hidx).symm
        have hinv' : ∀ t, lookupKV tsIdx t = idxOfTs (mergeInto res e) t := by
          intro t
          rw [hinv t]
          exact idxOfTs_congr res (mergeInto res e)
            (tsMap_mergeInto_found res e idx hidx).symm t
        calc mergeByTsAux (some e :: rest) res tsIdx
            = mergeByTsAux rest (res.set idx (mergeEvents (res.getD idx default) e)) tsIdx := by
              simp [mergeByTsAux, hl]
          _ = (denil rest).foldl mergeInto (mergeInto res e) := by
              rw [hset]; exact ih (mergeInto res e) tsIdx hinv'
      | none =>
        have hidx : idxOfTs res e.timestamp = none := by rw [← hinv, hl]
        have happ : res ++ [e] = mergeInto res e := (mergeInto_notFound res e hidx).symm
        have hinv' : ∀ t,
            lookupKV (tsIdx ++ [(e.timestamp, res.length)]) t = idxOfTs (res ++ [e]) t := by
          intro t
          rw [lookupKV_append, idxOfTs_append_single]
          rw [hinv t]
          cases hr : idxOfTs res t with
          | some i => simp [firstSome, hr]
          | none =>
            by_cases ht : t = e.timestamp
            · simp [firstSome, hr, lookupKV, ht]
            · have ht' : ¬ e.timestamp = t := fun hh => ht hh.symm
              simp [firstSome, hr, lookupKV, ht, ht']
        calc mergeByTsAux (some e :: rest) res tsIdx
            = mergeByTsAux rest (res ++ [e]) (tsIdx ++ [(e.timestamp, res.length)]) := by
              simp [mergeByTsAux, hl]
          _ = (denil rest).foldl mergeInto (mergeInto res e) := by
              rw [happ] at *
              exact ih (mergeInto res e) (tsIdx ++ [(e.timestamp, res.length)]) hinv'

/-- **C2.** The merge processor: in by-timestamp mode the result is exactly the
claim's grouping — events with identical timestamp are grouped keeping the
first occurrence in batch order, later group members folded into the group's
first event; in always mode every non-nil event of a batch with a non-nil
first entry is folded into the first event and a single-element batch
returned. The folding rules: `max` of timestamps, concatenation of deletes,
and union of tags and values with the second event winning on key collision.
The final conjunct is the spec's `Merge by timestamp` end-to-end example. -/
theorem c2_merge_processor :
    (∀ es : List (Option EventMsg),
      mergeApply false es = some ((specMergeByTs (denil es)).map some))
    ∧ (∀ (e0 : EventMsg) (rest : List (Option EventMsg)),
      mergeApply true (some e0 :: rest) = some [some ((denil rest).foldl mergeEvents e0)])
    ∧ (∀ e1 e2 : EventMsg,
      (mergeEvents e1 e2).timestamp = max e1.timestamp e2.timestamp
      ∧ (mergeEvents e1 e2).deletes = e1.deletes ++ e2.deletes)
    ∧ (∀ (e1 e2 : EventMsg) (k : String), keysNodup e2.tags →
      lookupKV (mergeEvents e1 e2).tags k =
        firstSome (lookupKV e2.tags k) (lookupKV e1.tags k))
    ∧ (∀ (e1 e2 : EventMsg) (k : String), keysNodup e2.values →
      lookupKV (mergeEvents e1 e2).values k =
        firstSome (lookupKV e2.values k) (lookupKV e1.values k))
    ∧ mergeApply false
        [some { timestamp := 1, tags := [("a", "1")] },
         some { timestamp := 1, values := [("v", .int 2)] },
         some { timestamp := 2, tags := [("b", "3")] }]
      = some
        [some { timestamp := 1, tags := [("a", "1")], values := [("v", .int 2)] },
         some { timestamp := 2, tags := [("b", "3")] }] := by
  refine ⟨?_, ?_, ?_, ?_, ?_, by decide⟩
  · intro es
    cases hes : es with
    | nil => simp [mergeApply, denil, specMergeByTs]
    | cons oe rest =>
      have hne : oe :: rest ≠ [] := by simp
      have haux := mergeByTsAux_eq_spec (oe :: rest) [] []
        (fun t => by simp [lookupKV, idxOfTs])
      simp only [mergeApply, if_neg hne, if_neg (by simp : ¬ (false = true))]
      rw [haux]
      rfl
  · intro e0 rest
    have hne : some e0 :: rest ≠ [] := by simp
    simp [mergeApply, hne]
  · intro e1 e2
    exact ⟨mergeEvents_timestamp e1 e2, rfl⟩
  · intro e1 e2 k h2
    simp only [mergeEvents]
    exact lookupKV_unionKV e1.tags e2.tags k h2
  · intro e1 e2 k h2
    simp only [mergeEvents]
    exact lookupKV_unionKV e1.values e2.values k h2

/-- Witness for C2, instantiating the tag-union conjunct on colliding keys:
the second event wins. -/
theorem c2_merge_processor_witness :
    lookupKV (mergeEvents { tags := [("k", "old")] } { tags := [("k", "new")] }).tags "k"
      = some "new" := by
  have h := c2_merge_processor.2.2.2.1
    { tags := [("k", "old")] } { tags := [("k", "new")] } "k" (by decide)
  simpa using h

/-! ## C3, C9, C10: the drop processor -/

theorem dropB_some_eq (d : DropCfg) (e : EventMsg) :
    dropB d (some e) = some (dropBool d e) := by
  unfold dropBool dropB
  split <;> rfl

theorem valueStrMatch_iff (res : List (String → Bool)) (v : EValue) :
    valueStrMatch res v = true ↔ ∃ vs, v = .str vs ∧ ∃ re ∈ res, re vs = true := by
  cases v with
  | str s => simp [valueStrMatch, List.any_eq_true]
  | int i => simp [valueStrMatch]

theorem dropRegexMatch_iff (d : DropCfg) (e : EventMsg) :
    dropRegexMatch d e = true ↔
      ((∃ p ∈ e.values, (∃ re ∈ d.valueNames, re p.1 = true) ∨
          (∃ vs, p.2 = .str vs ∧ ∃ re ∈ d.valuesRe, re vs = true)) ∨
       (∃ p ∈ e.tags, (∃ re ∈ d.tagNames, re p.1 = true) ∨
          (∃ re ∈ d.tagsRe, re p.2 = true))) := by
  unfold dropRegexMatch
  simp [List.any_eq_true, valueStrMatch_iff]

/-- The counterexample input of C3: a configured condition that evaluates to
false together with a tag-name regex matching the event's `interface` tag. -/
theorem c3_drop_counterexample :
    dropApply
      { condition := "false",
        condEval := fun _ => .boolResult false,
        tagNames := [fun s => s == "interface"] }
      [some { tags := [("interface", "ethernet1/1")], values := [("counter", .int 5)] }]
      = some [some { tags := [("interface", "ethernet1/1")], values := [("counter", .int 5)] }]
    ∧ ([("interface", "ethernet1/1")] : List (String × String)).any
        (fun p => [fun s : String => s == "interface"].any (fun re => re p.1)) = true :=
  ⟨rfl, rfl⟩

/-- **C3 (amended).** If a condition is configured, the drop processor drops an
event iff the condition evaluates to true or its evaluation fails — the regex
criteria are not consulted; only with no condition configured is the event
dropped iff some tag-name / tag-value / value-name / string-value regex
matches. Kept events form a subsequence of the input batch in order. -/
theorem c3_amended_drop :
    (∀ (d : DropCfg) (e : EventMsg), dropB d (some e) = some true ↔ dropSpec d e)
    ∧ (∀ (d : DropCfg) (es : List EventMsg),
      dropApply d (es.map some) = some ((es.filter (fun e => !dropBool d e)).map some))
    ∧ (∀ (d : DropCfg) (es out : List (Option EventMsg)),
      dropApply d es = some out → out.Sublist es) := by
  refine ⟨?_, ?_, ?_⟩
  · intro d e
    unfold dropB dropSpec
    by_cases hc : d.condition ≠ ""
    · simp only [if_pos hc]
      unfold checkCondition
      cases hr : d.condEval (some e) with
      | noResult => simp [hr]
      | errResult => simp [hr]
      | boolResult b => cases b <;> simp [hr]
      | otherResult => simp [hr]
    · simp only [if_neg hc, Option.some.injEq]
      exact dropRegexMatch_iff d e
  · intro d es
    induction es with
    | nil => rfl
    | cons e rest ih =>
      cases hb : dropBool d e <;>
        simp [dropApply, dropB_some_eq, hb, ih, List.filter_cons]
  · intro d es
    induction es with
    | nil =>
      intro out h
      simp only [dropApply, Option.some.injEq] at h
      simp [← h]
    | cons oe rest ih =>
      intro out h
      cases hb : dropB d oe with
      | none => simp [dropApply, hb] at h
      | some b =>
        cases b with
        | true =>
          simp only [dropApply, hb] at h
          exact (ih out h).cons oe
        | false =>
          simp only [dropApply, hb, Option.map_eq_some'] at h
          obtain ⟨out', h', rfl⟩ := h
          exact (ih out' h').cons₂ oe

/-- Witness for C3 (amended), on a singleton batch kept by an empty
configuration. -/
theorem c3_amended_drop_witness :
    ([some ({} : EventMsg)] : List (Option EventMsg)).Sublist [some ({} : EventMsg)] :=
  c3_amended_drop.2.2 {} [some {}] [some {}] rfl

/-- **C9.** The drop processor's `Apply` is idempotent: a batch it returns is
returned unchanged by a second application. -/
theorem c9_drop_idempotent (d : DropCfg) (es out : List (Option EventMsg))
    (h : dropApply d es = some out) : dropApply d out = some out := by
  induction es generalizing out with
  | nil =>
    simp only [dropApply, Option.some.injEq] at h
    simp [← h, dropApply]
  | cons oe rest ih =>
    cases hb : dropB d oe with
    | none => simp [dropApply, hb] at h
    | some b =>
      cases b with
      | true =>
        simp only [dropApply, hb] at h
        exact ih out h
      | false =>
        simp only [dropApply, hb, Option.map_eq_some'] at h
        obtain ⟨out', h', rfl⟩ := h
        simp [dropApply, hb, ih out' h']

/-- Witness for C9: a kept singleton batch is a fixed point of `Apply`. -/
theorem c9_drop_idempotent_witness :
    dropApply ({} : DropCfg) [some ({ name := "e" } : EventMsg)]
      = some [some ({ name := "e" } : EventMsg)] :=
  c9_drop_idempotent {} [some { name := "e" }] [some { name := "e" }] rfl

/-- **C10.** With a condition configured, a failed condition evaluation (an
error result or a non-boolean result) drops the event — fail-closed; and with
no compiled condition, `CheckCondition` returns true without error. -/
theorem c10_condition_fail_closed :
    (∀ (d : DropCfg) (e : EventMsg), d.condition ≠ "" →
      (d.condEval (some e) = .errResult ∨ d.condEval (some e) = .otherResult) →
      dropB d (some e) = some true ∧ dropApply d [some e] = some [])
    ∧ (∀ oe : Option EventMsg, checkCondition none oe = .ok true) := by
  constructor
  · intro d e hc hf
    have hb : dropB d (some e) = some true := by
      unfold dropB checkCondition
      rcases hf with hf | hf <;> simp [hc, hf]
    exact ⟨hb, by simp [dropApply, hb]⟩
  · intro oe
    rfl

/-- Witness for C10: a condition whose evaluation errors drops the event. -/
theorem c10_condition_fail_closed_witness :
    dropB { condition := ".values.x > 1", condEval := fun _ => .errResult } (some {})
      = some true :=
  (c10_condition_fail_closed.1 { condition := ".values.x > 1", condEval := fun _ => .errResult }
    {} (by decide) (Or.inl rfl)).1

/-! ## C4: the trigger window -/

/-- The counterexample input of C4: with `min = 1`, `max = 2`, `window = 10`,
eleven condition occurrences spaced 1 apart make the final call fire (through
the `lastTrigger` branch) although the number of occurrences within the
window at that moment is 10, far above `max = 2`. -/
theorem c4_trigger_counterexample :
    ((evalRun { minOcc := 1, maxOcc := 2, window := 10 } {}
        [1000, 1001, 1002, 1003, 1004, 1005, 1006, 1007, 1008, 1009, 1010, 1011, 1012]).1
      = [true, true, false, false, false, false, false, false, false, false, false, false, true])
    ∧ (([1000, 1001, 1002, 1003, 1004, 1005, 1006, 1007, 1008, 1009, 1010, 1011, 1012].filter
        (fun t => decide (t + 10 > 1012))).length = 10)
    ∧ 10 > 2 := by
  refine ⟨by decide, by decide, by decide⟩

/-- **C4 (amended).** `evalOccurrencesWithinWindow` keeps at most `max + 1`
occurrences; it fires when that count is in `[min, max]`, never fires when the
count is below `min`, and any firing has the count in `[min, max]` or above
`min` with the last firing more than `window` in the past — so it can also
fire with more than `max` occurrences in the window. -/
theorem c4_trigger_amended (tc : TriggerCfg) (st : TriggerState) (now : Int) :
    (tc.minOcc ≤ ((evalOccurrencesWithinWindow tc st now).2).occurrencesTimes.length ∧
        ((evalOccurrencesWithinWindow tc st now).2).occurrencesTimes.length ≤ tc.maxOcc →
      (evalOccurrencesWithinWindow tc st now).1 = true)
    ∧ (((evalOccurrencesWithinWindow tc st now).2).occurrencesTimes.length < tc.minOcc →
      (evalOccurrencesWithinWindow tc st now).1 = false)
    ∧ ((evalOccurrencesWithinWindow tc st now).1 = true →
      (tc.minOcc ≤ ((evalOccurrencesWithinWindow tc st now).2).occurrencesTimes.length ∧
        ((evalOccurrencesWithinWindow tc st now).2).occurrencesTimes.length ≤ tc.maxOcc) ∨
      (tc.minOcc < ((evalOccurrencesWithinWindow tc st now).2).occurrencesTimes.length ∧
        st.lastTrigger + tc.window < now)) := by
  have aux : ∀ (minO maxO : Nat) (w lt : Int) (occ2 : List Int) (r : Bool × TriggerState),
      r = (if minO ≤ occ2.length ∧ occ2.length ≤ maxO then (true, ⟨occ2, now⟩)
           else if minO < occ2.length ∧ lt + w < now then (true, ⟨occ2, now⟩)
           else (false, ⟨occ2, lt⟩)) →
      (minO ≤ r.2.occurrencesTimes.length ∧ r.2.occurrencesTimes.length ≤ maxO → r.1 = true)
      ∧ (r.2.occurrencesTimes.length < minO → r.1 = false)
      ∧ (r.1 = true →
        (minO ≤ r.2.occurrencesTimes.length ∧ r.2.occurrencesTimes.length ≤ maxO)
        ∨ (minO < r.2.occurrencesTimes.length ∧ lt + w < now)) := by
    intro minO maxO w lt occ2 r hr
    subst hr
    split_ifs with h1 h2 <;> refine ⟨?_, ?_, ?_⟩ <;> intro h <;> simp_all <;> omega
  exact aux tc.minOcc tc.maxOcc tc.window st.lastTrigger
    (if (st.occurrencesTimes.filter (fun t => decide (t + tc.window > now)) ++ [now]).length
        > tc.maxOcc
     then (st.occurrencesTimes.filter (fun t => decide (t + tc.window > now)) ++ [now]).drop
        ((st.occurrencesTimes.filter (fun t => decide (t + tc.window > now)) ++ [now]).length
          - tc.maxOcc - 1)
     else st.occurrencesTimes.filter (fun t => decide (t + tc.window > now)) ++ [now])
    (evalOccurrencesWithinWindow tc st now) rfl

/-- Witness for C4 (amended): the very first occurrence fires a `min = max = 1`
trigger. -/
theorem c4_trigger_amended_witness :
    (evalOccurrencesWithinWindow { minOcc := 1, maxOcc := 1, window := 10 } {} 5).1 = true :=
  (c4_trigger_amended { minOcc := 1, maxOcc := 1, window := 10 } {} 5).1 (by decide)

/-! ## C5: aggregated cluster views -/

/-- The counterexample input of C5: a failing service listing turns the whole
`GET /api/v1/cluster` response into a 500 with an errors body (no partial
data); a failing leader lookup is silently swallowed — the response is a plain
200 whose `clusteringResponse` carries no error field at all. -/
theorem c5_cluster_counterexample :
    handleClusteringGet true "c" (.ok []) (.error "service query failed") (.ok [])
      = (500, .errors ["service query failed"])
    ∧ getLeaderName "c" (.error "leader query failed") = .ok ""
    ∧ handleClusteringGet true "c" (.error "leader query failed") (.ok []) (.ok [])
      = (200, .cluster { clusterName := "c" }) :=
  ⟨rfl, rfl, rfl⟩

/-- **C5 (amended).** In the three aggregated cluster views, only the leader
lookup is failure-tolerant: `getLeaderName` swallows its error, so a failing
leader query behaves exactly like an empty leader store and no error is
reported anywhere in the response; a failing service listing or a failing
target-lock listing fails the whole response with HTTP 500 and an errors
body; with all queries succeeding the handlers return 200. -/
theorem c5_cluster_amended :
    (∀ (n e : String) (s : Except String (List ServiceEntry))
        (i : Except String (List (String × List String))),
      handleClusteringGet true n (.error e) s i = handleClusteringGet true n (.ok []) s i)
    ∧ (∀ (n : String) (l : Except String (List (String × String))) (e : String)
        (i : Except String (List (String × List String))),
      handleClusteringGet true n l (.error e) i = (500, .errors [e]))
    ∧ (∀ (n : String) (l : Except String (List (String × String)))
        (svcs : List ServiceEntry) (e : String),
      handleClusteringGet true n l (.ok svcs) (.error e) = (500, .errors [e]))
    ∧ (∀ (n : String) (l : Except String (List (String × String)))
        (svcs : List ServiceEntry) (nodes : List (String × List String)),
      (handleClusteringGet true n l (.ok svcs) (.ok nodes)).1 = 200
      ∧ ∃ r, (handleClusteringGet true n l (.ok svcs) (.ok nodes)).2 = .cluster r)
    ∧ (∀ (n e : String) (s : Except String (List ServiceEntry))
        (i : Except String (List (String × List String))),
      handleClusteringMembersGet true n (.error e) s i
        = handleClusteringMembersGet true n (.ok []) s i)
    ∧ (∀ (n : String) (l : Except String (List (String × String))) (e : String)
        (i : Except String (List (String × List String))),
      handleClusteringMembersGet true n l (.error e) i = (500, .errors [e]))
    ∧ (∀ (n : String) (l : Except String (List (String × String)))
        (svcs : List ServiceEntry) (e : String),
      handleClusteringMembersGet true n l (.ok svcs) (.error e) = (500, .errors [e]))
    ∧ (∀ (n : String) (l : Except String (List (String × String)))
        (svcs : List ServiceEntry) (nodes : List (String × List String)),
      (handleClusteringMembersGet true n l (.ok svcs) (.ok nodes)).1 = 200
      ∧ ∃ ms, (handleClusteringMembersGet true n l (.ok svcs) (.ok nodes)).2 = .members ms)
    ∧ (∀ (n e : String) (s : Except String (List ServiceEntry))
        (i : Except String (List (String × List String))),
      handleClusteringLeaderGet true n (.error e) s i
        = handleClusteringLeaderGet true n (.ok []) s i)
    ∧ (∀ (n : String) (l : Except String (List (String × String))) (e : String)
        (i : Except String (List (String × List String))),
      handleClusteringLeaderGet true n l (.error e) i = (500, .errors [e]))
    ∧ (∀ (n : String) (l : Except String (List (String × String)))
        (svcs : List ServiceEntry) (e : String),
      handleClusteringLeaderGet true n l (.ok svcs) (.error e) = (500, .errors [e]))
    ∧ (∀ (n : String) (l : Except String (List (String × String)))
        (svcs : List ServiceEntry) (nodes : List (String × List String)),
      (handleClusteringLeaderGet true n l (.ok svcs) (.ok nodes)).1 = 200
      ∧ ∃ ms, (handleClusteringLeaderGet true n l (.ok svcs) (.ok nodes)).2 = .members ms) := by
  refine ⟨?_, ?_, ?_, ?_, ?_, ?_, ?_, ?_, ?_, ?_, ?_, ?_⟩ <;> intro n l e i <;>
    first
      | rfl
      | (cases l <;> rfl)
      | (cases l <;> exact ⟨rfl, _, rfl⟩)

/-! ## C7: leader-only admin operations -/

/-- **C7.** On a clustered non-leader instance, `DELETE /cluster/leader`,
`POST /cluster/rebalance` and `POST /cluster/drain/{id}` all return 400 with
the `{"errors":["not leader"]}` body and initiate no unlock, rebalance or
drain action. -/
theorem c7_leader_only_guard (u : Except String Unit) (id : String)
    (s : Except String (List ServiceEntry)) (t : Except String (List String)) :
    handleClusteringLeaderDelete true false u = ((400, .errors ["not leader"]), none)
    ∧ handleClusterRebalance true false = ((400, .errors ["not leader"]), none)
    ∧ handleClusteringDrainInstance true false id s t = ((400, .errors ["not leader"]), none) :=
  ⟨rfl, rfl, rfl⟩

/-! ## C8: target passwords are redacted on read -/

theorem lookupKV_map_snd {β γ : Type} (targets : List (String × β)) (f : β → γ) (k : String) :
    lookupKV (targets.map (fun p => (p.1, f p.2))) k = (lookupKV targets k).map f := by
  induction targets with
  | nil => simp [lookupKV]
  | cons p rest ih =>
    obtain ⟨k', v⟩ := p
    by_cases h : k = k' <;> simp [lookupKV, h, ih]

/-- **C8.** `GET /api/v1/config/targets[/{id}]` returns password-redacted deep
copies (`****`) while the stored configuration is left untouched; an unknown
id yields a 404 with an errors body. -/
theorem c8_targets_redacted (targets : List (String × TargetConfig)) (id : String)
    (tc : TargetConfig) :
    ((handleConfigTargetsGet targets id).2 = targets)
    ∧ ((handleConfigTargetsGet targets "").1.1 = 200)
    ∧ (∀ p ∈ targets.map (fun p => (p.1, redactTarget p.2)), p.2.password = some "****")
    ∧ ((handleConfigTargetsGet targets "").1.2
        = .targetsMap (targets.map (fun p => (p.1, redactTarget p.2))))
    ∧ (∀ k, lookupKV (targets.map (fun p => (p.1, redactTarget p.2))) k
        = (lookupKV targets k).map redactTarget)
    ∧ (id ≠ "" → lookupKV targets id = some tc →
        (handleConfigTargetsGet targets id).1 = (200, .oneTarget (redactTarget tc))
        ∧ (redactTarget tc).password = some "****")
    ∧ (id ≠ "" → lookupKV targets id = none →
        (handleConfigTargetsGet targets id).1.1 = 404
        ∧ (handleConfigTargetsGet targets id).1.2
            = .errors ["target \"" ++ id ++ "\" not found"]) := by
  refine ⟨?_, by simp [handleConfigTargetsGet], ?_, by simp [handleConfigTargetsGet], ?_, ?_, ?_⟩
  · by_cases h : id = ""
    · simp [handleConfigTargetsGet, h]
    · cases hl : lookupKV targets id <;> simp [handleConfigTargetsGet, h, hl]
  · intro p hp
    obtain ⟨q, hq, rfl⟩ := List.mem_map.mp hp
    rfl
  · intro k
    exact lookupKV_map_snd targets redactTarget k
  · intro hid hl
    refine ⟨?_, rfl⟩
    simp [handleConfigTargetsGet, hid, hl]
  · intro hid hl
    constructor <;> simp [handleConfigTargetsGet, hid, hl]

/-- Witness for C8: reading an existing target returns its redacted copy. -/
theorem c8_targets_redacted_witness :
    (handleConfigTargetsGet [("t1", { name := "t1", password := some "secret" })] "t1").1
      = (200, .oneTarget (redactTarget { name := "t1", password := some "secret" })) :=
  ((c8_targets_redacted [("t1", { name := "t1", password := some "secret" })] "t1"
    { name := "t1", password := some "secret" }).2.2.2.2.2.1
    (by decide) (by decide)).1

/-! ## C6: nil entries in batches -/

theorem mergeByTsAux_denil (es : List (Option EventMsg)) :
    ∀ (res : List EventMsg) (tsIdx : List (Int × Nat)),
    mergeByTsAux es res tsIdx = mergeByTsAux ((denil es).map some) res tsIdx := by
  induction es with
  | nil => intro res tsIdx; rfl
  | cons oe rest ih =>
    intro res tsIdx
    cases oe with
    | none => simpa [mergeByTsAux, denil] using ih res tsIdx
    | some e =>
      have hd : denil (some e :: rest) = e :: denil rest := by simp [denil]
      rw [hd]
      cases hl : lookupKV tsIdx e.timestamp <;>
        simp [mergeByTsAux, hl, ih]

/-- The counterexample input of C6: the drop processor panics (nil-pointer
dereference of `e.Values`) on a nil entry when no condition is configured, and
merge in always mode panics when the first entry is nil and a later one is
non-nil — neither tolerates and skips those nil entries. -/
theorem c6_nil_counterexample :
    dropApply ({} : DropCfg) [none] = none
    ∧ mergeApply true [none, some ({} : EventMsg)] = none :=
  ⟨rfl, rfl⟩

/-- **C6 (amended).** Nil tolerance per processor: merge in by-timestamp mode
skips nil entries; merge in always mode skips nil entries after a non-nil
first entry but faults when the first entry is nil and a later one is
non-nil; drop never faults when a condition is configured but faults on a nil
entry otherwise; override-timestamp, strings and trigger skip nil entries
(trigger's state is insensitive to them and the batch is passed through). -/
theorem c6_nil_handling :
    (∀ es : List (Option EventMsg),
      mergeApply false es = mergeApply false ((denil es).map some))
    ∧ (∀ (e0 : EventMsg) (rest : List (Option EventMsg)),
      mergeApply true (some e0 :: rest) = some [some ((denil rest).foldl mergeEvents e0)])
    ∧ (∀ rest : List (Option EventMsg), denil rest ≠ [] →
      mergeApply true (none :: rest) = none)
    ∧ (∀ (d : DropCfg) (es : List (Option EventMsg)), d.condition ≠ "" →
      ∃ out, dropApply d es = some out)
    ∧ (∀ (p : String) (now : Int) (es : List (Option EventMsg)),
      overrideTsApply p now es = es.map (fun oe => oe.map (overrideTsEvent p now)))
    ∧ (∀ (f : EventMsg → EventMsg) (es : List (Option EventMsg)),
      stringsApply f es = es.map (fun oe => oe.map f))
    ∧ (∀ (tc : TriggerCfg) (st : TriggerState) (now : Int) (es : List (Option EventMsg)),
      (triggerApply tc st now es).1 = es
      ∧ (triggerApply tc st now es).2
          = (triggerApply tc st now ((denil es).map some)).2) := by
  refine ⟨?_, ?_, ?_, ?_, ?_, ?_, ?_⟩
  · intro es
    by_cases h1 : es = []
    · subst h1; rfl
    · by_cases h2 : (denil es).map some = ([] : List (Option EventMsg))
      · simp only [mergeApply, if_neg h1, if_pos h2, Bool.false_eq_true, if_false,
          mergeByTsAux_denil es [] [], h2]
        rfl
      · simp only [mergeApply, if_neg h1, if_neg h2, Bool.false_eq_true, if_false,
          mergeByTsAux_denil es [] []]
  · intro e0 rest
    have hne : some e0 :: rest ≠ [] := by simp
    simp [mergeApply, hne]
  · intro rest h
    have hne : (none :: rest : List (Option EventMsg)) ≠ [] := by simp
    simp [mergeApply, hne, h]
  · intro d es hc
    induction es with
    | nil => exact ⟨[], rfl⟩
    | cons oe rest ih =>
      obtain ⟨out, hout⟩ := ih
      have hb : dropB d oe = some (match checkCondition (some d.condEval) oe with
        | .error _ => true
        | .ok ok => ok) := by
        unfold dropB
        rw [if_pos hc]
      cases hcc : (match checkCondition (some d.condEval) oe with
        | .error _ => true
        | .ok ok => ok : Bool) with
      | true => exact ⟨out, by rw [hcc] at hb; simp [dropApply, hb, hout]⟩
      | false => exact ⟨oe :: out, by rw [hcc] at hb; simp [dropApply, hb, hout]⟩
  · intro p now es
    induction es with
    | nil => rfl
    | cons oe rest ih => cases oe <;> simp [overrideTsApply, ih]
  · intro f es
    induction es with
    | nil => rfl
    | cons oe rest ih => cases oe <;> simp [stringsApply, ih]
  · intro tc st now es
    constructor
    · induction es generalizing st with
      | nil => rfl
      | cons oe rest ih => simp [triggerApply, ih]
    · induction es generalizing st with
      | nil => rfl
      | cons oe rest ih =>
        cases oe with
        | none =>
          have hstep : (triggerStep tc st now none).1 = st := rfl
          simp [triggerApply, denil, hstep, ih]
        | some e =>
          have hd : denil (some e :: rest) = e :: denil rest := by simp [denil]
          simp [triggerApply, hd, denil, ih]

/-- Witness for C6 (amended): a drop processor with a condition does not fault
on a nil entry, it evaluates the condition on the `null` input instead. -/
theorem c6_nil_handling_witness :
    ∃ out,
      dropApply { condition := ".tags.x", condEval := fun _ => .boolResult false } [none]
        = some out :=
  c6_nil_handling.2.2.2.1
    { condition := ".tags.x", condEval := fun _ => .boolResult false } [none] (by decide)

end Gnmic
